import Mathlib

/-!
# Verification of the valutatrade_hub trading core

Shallow embedding of the core of the `valutatrade_hub` repository:
the rate cache read path (`core/usecases.py:_get_cached_rate`), the
wallet and portfolio model (`core/models.py`), the trading services
(`core/usecases.py:PortfolioService`), user registration
(`core/usecases.py:UserService.register`), the parser storage
(`parser_service/storage.py`) and the JSON database manager
(`infra/database.py`).

Conventions of the embedding:
* Python `float` balances, rates and amounts are embedded as `Rat`
  (the spec calls them real numbers; no claim depends on binary
  floating-point rounding).
* Timestamps are embedded as integers (seconds); `datetime` arithmetic
  `now - updated_at < timedelta(seconds=TTL)` becomes `now - t < ttl`.
* Python exceptions become an error sum type `PyErr`; each `raise` site
  maps to one constructor.  `ApiRequestError` is raised at two distinct
  sites in `_prepare_transaction` (missing rate / stale rate); these two
  sites are tagged `rateUnavailable` and `rateStale`, matching the
  spec's error taxonomy.  The duplicate-username `ValueError` site in
  `UserService.register` is tagged `duplicateUsername`.
* Python `dict`s that are (de)serialized from JSON are embedded as
  association lists with first-match lookup; keys coming from a `dict`
  are unique, so first-match equals only-match.
-/

/-- Embedding of Python `str.upper()` (character-wise uppercasing; all
strings involved in the claims are ASCII).  Defined structurally so
that it evaluates by `rfl`/`decide`. -/
def pyUpper (s : String) : String :=
  ⟨s.data.map Char.toUpper⟩

/-- Embedding of Python `str.strip()` (drop leading and trailing
whitespace), defined structurally so that it evaluates. -/
def pyStrip (s : String) : String :=
  ⟨((s.data.dropWhile Char.isWhitespace).reverse.dropWhile
      Char.isWhitespace).reverse⟩

/-- First-match lookup in an association list, the embedding of Python
`dict.get` for dictionaries represented as association lists. -/
def lookupList {α : Type} : List (String × α) → String → Option α
  | [], _ => none
  | (k, v) :: rest, key => if k = key then some v else lookupList rest key

/-- Replace the value at `key` (keeping its position, as Python dict
assignment does), or append the binding at the end if the key is new. -/
def updateList {α : Type} : List (String × α) → String → α → List (String × α)
  | [], key, v => [(key, v)]
  | (k, w) :: rest, key, v =>
      if k = key then (key, v) :: rest else (k, w) :: updateList rest key v

/-- Embedding of Python `dict.update(other)`: existing keys keep their
position but take the new value; keys only in `upd` are appended in
order. -/
def dictUpdate {α : Type} (base upd : List (String × α)) : List (String × α) :=
  (base.map fun kv =>
    match lookupList upd kv.1 with
    | some v => (kv.1, v)
    | none => kv) ++
  upd.filter fun kv => (lookupList base kv.1).isNone

/-- The `updated_at` field of a cached pair entry as it sits in
`rates.json`: the key may be absent or the empty string (both falsy in
`if not updated_at_str`), present but rejected by
`datetime.fromisoformat` (`ValueError`), or parse to a timestamp. -/
inductive TimeField where
  | missing
  | malformed
  | parsed (t : Int)
deriving DecidableEq, Repr

/-- One entry of the `pairs` mapping in `rates.json` as read by
`_get_cached_rate`: the `rate` field may be absent (`none`), and is a
number otherwise. -/
structure PairInfoJson where
  rate : Option Rat
  updated_at : TimeField
  source : String
deriving DecidableEq, Repr

/-- The rate cache file `rates.json`:
`{pairs: {PAIR_KEY: {rate, updated_at, source}}, last_refresh}`
(the shape written by `ParserStorage.save_current_rates` and defaulted
by `DatabaseManager.load_rates_cache`). -/
structure RatesCache where
  pairs : List (String × PairInfoJson)
  last_refresh : Option Int
deriving DecidableEq, Repr

/-- Embedding of `usecases._get_cached_rate(from_cur, to_cur)`.
Returns `(rate, updated_at, is_fresh)`.  The cache content, the TTL
(`RATES_TTL`) and the current time (`datetime.now()`) are explicit
parameters.  Mirrors the source: absent pair, falsy `rate` (absent or
`0`), falsy `updated_at` and unparseable `updated_at` all yield
`(None, None, False)`; otherwise freshness is `now - updated_at < TTL`.
Note `if not rate` only filters a *falsy* rate: a negative stored rate
passes the check and is returned. -/
def _get_cached_rate (cache : RatesCache) (ttl now : Int)
    (from_cur to_cur : String) : Option Rat × Option Int × Bool :=
  let pair_key := pyUpper from_cur ++ "_" ++ pyUpper to_cur
  match lookupList cache.pairs pair_key with
  | none => (none, none, false)
  | some pair_info =>
    match pair_info.rate with
    | none => (none, none, false)
    | some rate =>
      if rate = 0 then (none, none, false)
      else
        match pair_info.updated_at with
        | .missing => (none, none, false)
        | .malformed => (none, none, false)
        | .parsed updated_at =>
          (some rate, some updated_at, decide (now - updated_at < ttl))

/-- The Python exception kinds raised by the embedded code, one
constructor per `raise` site family (see the module docstring). -/
inductive PyErr where
  | valueError (msg : String)
  | currencyNotFound (code : String)
  | rateUnavailable
  | rateStale
  | insufficientFunds (available required : Rat) (code : String)
  | duplicateUsername (username : String)
  | attributeError
deriving DecidableEq, Repr

/-- `models.Wallet`: a currency code and a balance. -/
structure Wallet where
  currency_code : String
  balance : Rat
deriving DecidableEq, Repr

/-- `Wallet.deposit`: raises `ValueError` on a non-positive amount,
otherwise adds to the balance. -/
def Wallet.deposit (w : Wallet) (amount : Rat) : Except PyErr Wallet :=
  if amount ≤ 0 then .error (.valueError "Deposit amount must be positive")
  else .ok { w with balance := w.balance + amount }

/-- `Wallet.withdraw`: raises `ValueError` on a non-positive amount,
`InsufficientFundsError(balance, amount, currency_code)` when the
balance is too small, otherwise subtracts.  All checks precede the
mutation, so an error leaves the wallet untouched. -/
def Wallet.withdraw (w : Wallet) (amount : Rat) : Except PyErr Wallet :=
  if amount ≤ 0 then .error (.valueError "Withdrawal amount must be positive")
  else if w.balance < amount then
    .error (.insufficientFunds w.balance amount w.currency_code)
  else .ok { w with balance := w.balance - amount }

/-- `models.Portfolio`: a user id and the `wallets` dict keyed by
uppercase currency code. -/
structure Portfolio where
  user_id : Int
  wallets : List (String × Wallet)
deriving DecidableEq, Repr

/-- `Portfolio.get_wallet`: dict lookup under the uppercased code. -/
def Portfolio.get_wallet (p : Portfolio) (currency_code : String) : Option Wallet :=
  lookupList p.wallets (pyUpper currency_code)

/-- `PortfolioService._get_or_create_wallet`: return the existing wallet,
or add a fresh zero-balance wallet (`Portfolio.add_currency`, dict
insertion appends) and return it. -/
def Portfolio.get_or_create (p : Portfolio) (currency_code : String) :
    Portfolio × Wallet :=
  let c := pyUpper currency_code
  match lookupList p.wallets c with
  | some w => (p, w)
  | none => ({ p with wallets := p.wallets ++ [(c, ⟨c, 0⟩)] }, ⟨c, 0⟩)

/-- Write a wallet back into the portfolio dict under `code` (the
embedding of mutating a wallet object aliased by `self._wallets[code]`). -/
def Portfolio.setWallet (p : Portfolio) (code : String) (w : Wallet) : Portfolio :=
  { p with wallets := updateList p.wallets code w }

/-- Balance of the wallet stored under (already canonical) key `code`,
`0` when the wallet does not exist. -/
def Portfolio.balanceAt (p : Portfolio) (code : String) : Rat :=
  match lookupList p.wallets code with
  | some w => w.balance
  | none => 0

/-- `wallet.withdraw(amount)` on the wallet stored under key `code`,
written back in place (the embedding of mutating the aliased wallet
object; `code` is canonical and the wallet exists on every reachable
call, the default is never hit there). -/
def Portfolio.withdrawAt (p : Portfolio) (code : String) (amount : Rat) :
    Except PyErr Portfolio :=
  let w := match lookupList p.wallets code with
    | some w => w
    | none => ⟨code, 0⟩
  match w.withdraw amount with
  | .error e => .error e
  | .ok w2 => .ok (p.setWallet code w2)

/-- `wallet.deposit(amount)` on the wallet stored under key `code`,
written back in place. -/
def Portfolio.depositAt (p : Portfolio) (code : String) (amount : Rat) :
    Except PyErr Portfolio :=
  let w := match lookupList p.wallets code with
    | some w => w
    | none => ⟨code, 0⟩
  match w.deposit amount with
  | .error e => .error e
  | .ok w2 => .ok (p.setWallet code w2)

/-- The fixed currency registry initialized by
`CurrencyRegistry._initialize` (codes only; the per-currency metadata
plays no role in the claims). -/
def supportedCodes : List String :=
  ["USD", "EUR", "GBP", "RUB", "JPY", "CNY",
   "BTC", "ETH", "SOL", "ADA", "DOT"]

/-- `currencies.get_currency(code)`: uppercase the code, raise
`CurrencyNotFoundError` when it is not registered, otherwise return the
currency (embedded by its canonical code, which equals the uppercased
input). -/
def get_currency (code : String) : Except PyErr String :=
  let c := pyUpper code
  if supportedCodes.contains c then .ok c else .error (.currencyNotFound c)

/-- `utils.validate_amount`: the amount string must parse to a positive
number.  The embedding takes the already-parsed numeric value; the
non-numeric-string `ValueError` is outside every claim. -/
def validate_amount (amount : Rat) : Except PyErr Rat :=
  if amount ≤ 0 then .error (.valueError "amount must be positive")
  else .ok amount

/-- Direction of a trade (`transaction_type` in
`PortfolioService._prepare_transaction`). -/
inductive TxType where
  | buy
  | sell
deriving DecidableEq, Repr

/-- What `_prepare_transaction` returns:
`(amount_float, rate, wallet_from, wallet_to, is_fresh)`.  The wallet
objects are embedded by the portfolio carrying the lazily created
wallets plus the two dict keys (`from_code` debit, `to_code` credit). -/
structure Prepared where
  amount : Rat
  rate : Rat
  portfolio : Portfolio
  from_code : String
  to_code : String
  is_fresh : Bool
deriving DecidableEq, Repr

/-- `PortfolioService._prepare_transaction`: validate the amount,
resolve the currency, read the cached rate for
`(currency.code, base_currency)` (missing → `ApiRequestError`
"unavailable", not fresh → `ApiRequestError` "stale"), lazily create
the debit and credit wallets (base first for buy, target first for
sell) and check funds sufficiency on the debit wallet.  On any error
nothing has been persisted (the exception propagates before
`_save_portfolio`). -/
def _prepare_transaction (port : Portfolio) (cache : RatesCache)
    (ttl now : Int) (currency_code : String) (amount : Rat)
    (base_currency : String) (transaction_type : TxType) :
    Except PyErr Prepared :=
  match validate_amount amount with
  | .error e => .error e
  | .ok amount_float =>
    match get_currency currency_code with
    | .error e => .error e
    | .ok ccode =>
      match _get_cached_rate cache ttl now ccode base_currency with
      | (none, _, _) => .error .rateUnavailable
      | (some rate, _, is_fresh) =>
        if is_fresh = false then .error .rateStale
        else
          match transaction_type with
          | .buy =>
            let pw1 := port.get_or_create base_currency
            let pw2 := pw1.1.get_or_create ccode
            let required := amount_float * rate
            if pw1.2.balance < required then
              .error (.insufficientFunds pw1.2.balance required base_currency)
            else
              .ok ⟨amount_float, rate, pw2.1,
                   pyUpper base_currency, pyUpper ccode, is_fresh⟩
          | .sell =>
            let pw1 := port.get_or_create ccode
            let pw2 := pw1.1.get_or_create base_currency
            let required := amount_float
            if pw1.2.balance < required then
              .error (.insufficientFunds pw1.2.balance required ccode)
            else
              .ok ⟨amount_float, rate, pw2.1,
                   pyUpper ccode, pyUpper base_currency, is_fresh⟩

/-- The dict `buy_currency` tries to return. -/
structure BuyResult where
  currency : String
  amount : Rat
  rate : Rat
  cost : Rat
  base_currency : String
  new_balance : Rat
  base_balance : Rat
  rate_fresh : Bool
deriving DecidableEq, Repr

/-- The dict `sell_currency` returns. -/
structure SellResult where
  currency : String
  amount : Rat
  rate : Rat
  proceeds : Rat
  base_currency : String
  new_balance : Rat
  base_balance : Rat
  rate_fresh : Bool
deriving DecidableEq, Repr

/-- Python attribute access `currency_code.code` where `currency_code`
is a `str` (the first value of the result dict in `buy_currency`):
`str` has no attribute `code`, so this raises `AttributeError`. -/
def strAttrCode (_s : String) : Except PyErr String :=
  .error .attributeError

/-- `PortfolioService.buy_currency`.  The first component of the result
is the *persisted* portfolio after the call (`_save_portfolio` runs only
on the success path, which is also the only path that mutates balances);
the second is the returned dict or the propagated exception.  On the
success path the code runs `base_wallet.withdraw(cost)`,
`target_wallet.deposit(amount)`, `_save_portfolio()`, and then evaluates
`currency_code.code` while building the result dict — which raises
`AttributeError`, after the trade has been persisted. -/
def buy_currency (port : Portfolio) (cache : RatesCache) (ttl now : Int)
    (currency_code : String) (amount : Rat) (base_currency : String) :
    Portfolio × Except PyErr BuyResult :=
  match _prepare_transaction port cache ttl now currency_code amount
      base_currency .buy with
  | .error e => (port, .error e)
  | .ok prep =>
    let cost := prep.amount * prep.rate
    match prep.portfolio.withdrawAt prep.from_code cost with
    | .error e => (port, .error e)
    | .ok p1 =>
      match p1.depositAt prep.to_code prep.amount with
      | .error e => (port, .error e)
      | .ok p2 =>
        (p2,
          match strAttrCode currency_code with
          | .error e => .error e
          | .ok c =>
            .ok ⟨c, prep.amount, prep.rate, cost, base_currency,
                 p2.balanceAt prep.to_code, p2.balanceAt prep.from_code,
                 prep.is_fresh⟩)

/-- `PortfolioService.sell_currency`: withdraw `amount` from the target
currency wallet, deposit `amount * rate` into the base wallet, persist,
and return the result dict (the `if not is_fresh` warning branch is
unreachable because `_prepare_transaction` already raised on a stale
rate). -/
def sell_currency (port : Portfolio) (cache : RatesCache) (ttl now : Int)
    (currency_code : String) (amount : Rat) (base_currency : String) :
    Portfolio × Except PyErr SellResult :=
  match _prepare_transaction port cache ttl now currency_code amount
      base_currency .sell with
  | .error e => (port, .error e)
  | .ok prep =>
    let proceeds := prep.amount * prep.rate
    match prep.portfolio.withdrawAt prep.from_code prep.amount with
    | .error e => (port, .error e)
    | .ok p1 =>
      match p1.depositAt prep.to_code proceeds with
      | .error e => (port, .error e)
      | .ok p2 =>
        (p2,
          .ok ⟨pyUpper currency_code, prep.amount, prep.rate, proceeds,
               base_currency, p2.balanceAt prep.from_code,
               p2.balanceAt prep.to_code, prep.is_fresh⟩)

/-- A direct wallet operation, for reasoning about sequences of
`Wallet.deposit` / `Wallet.withdraw` calls. -/
inductive WalletOp where
  | deposit (amount : Rat)
  | withdraw (amount : Rat)
deriving DecidableEq, Repr

/-- Run one wallet operation; when the call raises, the wallet object is
kept as it was (both methods check before mutating `_balance`). -/
def Wallet.applyOp (w : Wallet) (op : WalletOp) : Wallet :=
  match op with
  | .deposit a =>
    match w.deposit a with
    | .ok w2 => w2
    | .error _ => w
  | .withdraw a =>
    match w.withdraw a with
    | .ok w2 => w2
    | .error _ => w

/-- Run a sequence of wallet operations. -/
def Wallet.applyOps (w : Wallet) (ops : List WalletOp) : Wallet :=
  ops.foldl Wallet.applyOp w

/-- One record of `users.json` (`User.to_dict`). -/
structure UserRec where
  user_id : Int
  username : String
  hashed_password : String
  salt : String
  registration_date : String
deriving DecidableEq, Repr

/-- Python `max(list, default=0)`: the maximum element, or `0` when the
list is empty (no clamping at `0` for non-empty lists). -/
def pyMaxD (l : List Int) (d : Int) : Int :=
  match l with
  | [] => d
  | x :: xs => xs.foldl max x

/-- `UserService.register(username, password)` over the stores loaded
from `users.json` and `portfolios.json`.  The random salt
(`os.urandom(16).hex()`), the SHA-256 `hash_password` and
`datetime.now().isoformat()` are parameters of the embedding (the
claims do not depend on their values).  On success the new user record
and an empty portfolio are appended and both stores saved; every raise
happens before any save, so an error leaves both stores untouched. -/
def register (users : List UserRec) (portfolios : List Portfolio)
    (username password : String) (salt now : String)
    (hashFn : String → String → String) :
    Except PyErr (List UserRec × List Portfolio × UserRec) :=
  if username = "" ∨ pyStrip username = "" then
    .error (.valueError "username must not be empty")
  else if password.length < 4 then
    .error (.valueError "password must be at least 4 characters")
  else if users.any fun u => u.username = username then
    .error (.duplicateUsername username)
  else
    let new_id := pyMaxD (users.map fun u => u.user_id) 0 + 1
    let user : UserRec := ⟨new_id, username, hashFn password salt, salt, now⟩
    let portfolio : Portfolio := ⟨new_id, []⟩
    .ok (users ++ [user], portfolios ++ [portfolio], user)

/-- One record of the `exchange_rates.json` history
(`ParserStorage.save_exchange_rate`). -/
structure RateRecord where
  id : String
  from_currency : String
  to_currency : String
  rate : Rat
  timestamp : String
  source : String
  meta : List (String × String)
deriving DecidableEq, Repr

/-- `ParserStorage.save_exchange_rate`: build the record (id from
`_generate_rate_id`, timestamp `datetime.now().isoformat() + "Z"` —
both rendered from the `now` parameter here), append it to the history,
and when the history then exceeds 1000 entries keep only the last 1000
(`history[-1000:]`). -/
def save_exchange_rate (history : List RateRecord)
    (from_currency to_currency : String) (rate : Rat) (source : String)
    (meta : List (String × String)) (now : String) : List RateRecord :=
  let record : RateRecord :=
    ⟨from_currency ++ "_" ++ to_currency ++ "_" ++ now,
     from_currency, to_currency, rate, now ++ "Z", source, meta⟩
  let h := history ++ [record]
  if h.length > 1000 then h.drop (h.length - 1000) else h

/-- `ParserStorage.save_current_rates(rates, source)` on a cache already
in the `{pairs, last_refresh}` format (the shape `load_rates_cache`
defaults to; the legacy flat-dict migration branch only reshapes older
files before the same merge).  Every pair of `rates` is written as
`{rate, updated_at: current_time, source}`, merged into the existing
`pairs` by `dict.update`, and `last_refresh` is set to the same write
time. -/
def save_current_rates (cache : RatesCache) (rates : List (String × Rat))
    (source : String) (current_time : Int) : RatesCache :=
  let new_pairs : List (String × PairInfoJson) :=
    rates.map fun kv => (kv.1, ⟨some kv.2, .parsed current_time, source⟩)
  { pairs := dictUpdate cache.pairs new_pairs,
    last_refresh := some current_time }

/-- The state of one backing JSON file as seen by
`DatabaseManager._load_json`: the file may be missing
(`FileNotFoundError`), hold unparseable JSON (`json.JSONDecodeError`),
or hold a parsed value. -/
inductive Stored (α : Type) where
  | missing
  | unparseable
  | parsed (v : α)
deriving DecidableEq, Repr

/-- `DatabaseManager._load_json(filename, default)`: both caught
exceptions return the caller's default; a parsed file returns its
content.  No error escapes. -/
def _load_json {α : Type} (file : Stored α) (default : α) : α :=
  match file with
  | .missing => default
  | .unparseable => default
  | .parsed v => v

/-- `DatabaseManager.load_users`: default `[]`. -/
def load_users (file : Stored (List UserRec)) : List UserRec :=
  _load_json file []

/-- `DatabaseManager.load_portfolios`: default `[]`. -/
def load_portfolios (file : Stored (List Portfolio)) : List Portfolio :=
  _load_json file []

/-- `DatabaseManager.load_rates_cache`: default
`{"pairs": {}, "last_refresh": None}`. -/
def load_rates_cache (file : Stored RatesCache) : RatesCache :=
  _load_json file ⟨[], none⟩

/-- `DatabaseManager.load_exchange_rates_history`: default `[]`. -/
def load_exchange_rates_history (file : Stored (List RateRecord)) :
    List RateRecord :=
  _load_json file []

/-- `DatabaseManager._save_json`: unconditionally replaces the file
content with the serialized data (atomic replace), whatever state the
file was in. -/
def _save_json {α : Type} (_file : Stored α) (data : α) : Stored α :=
  .parsed data

/-! ## Concrete fixtures (the spec's test scenario and counterexample inputs) -/

/-- The portfolio of user "alice" with the USD wallet seeded to 1000.00. -/
def alicePortfolio : Portfolio :=
  ⟨1, [("USD", ⟨"USD", 1000⟩)]⟩

/-- A cache holding BTC_USD at 60000.0, updated at time 0. -/
def btcUsdCache : RatesCache :=
  ⟨[("BTC_USD", ⟨some 60000, .parsed 0, "parser"⟩)], some 0⟩

/-- A cache holding BTC_USD with a *negative* stored rate. -/
def negRateCache : RatesCache :=
  ⟨[("BTC_USD", ⟨some (-1), .parsed 0, "parser"⟩)], some 0⟩

/-- A sample history record. -/
def sampleRecord : RateRecord :=
  ⟨"BTC_USD_t0", "BTC", "USD", 60000, "t0Z", "parser", []⟩

/-- Alice's portfolio with both a USD wallet (1000.00) and an empty
BTC wallet. -/
def aliceWithBtc : Portfolio :=
  ⟨1, [("USD", ⟨"USD", 1000⟩), ("BTC", ⟨"BTC", 0⟩)]⟩

/-- A sample stored user. -/
def sampleUser : UserRec :=
  ⟨1, "alice", "hash", "salt", "2026-01-01"⟩

/-! ## Helper lemmas about association lists -/

theorem lookupList_updateList_self {α : Type} (l : List (String × α))
    (k : String) (v : α) : lookupList (updateList l k v) k = some v := by
  induction l with
  | nil => simp [updateList, lookupList]
  | cons hd tl ih =>
    by_cases h : hd.1 = k
    · simp [updateList, h, lookupList]
    · simp [updateList, h, lookupList, ih]

theorem lookupList_updateList_ne {α : Type} (l : List (String × α))
    (k k2 : String) (v : α) (h : k2 ≠ k) :
    lookupList (updateList l k v) k2 = lookupList l k2 := by
  have hne : ¬ k = k2 := Ne.symm h
  induction l with
  | nil => simp [updateList, lookupList, hne]
  | cons hd tl ih =>
    by_cases hk : hd.1 = k
    · subst hk
      simp [updateList, lookupList, hne]
    · simp only [updateList, if_neg hk]
      by_cases hk2 : hd.1 = k2
      · simp [lookupList, hk2]
      · simp [lookupList, hk2, ih]

theorem lookupList_append {α : Type} (l1 l2 : List (String × α)) (k : String) :
    lookupList (l1 ++ l2) k =
      match lookupList l1 k with
      | some v => some v
      | none => lookupList l2 k := by
  induction l1 with
  | nil => simp [lookupList]
  | cons hd tl ih =>
    by_cases h : hd.1 = k
    · simp [lookupList, h]
    · simp [lookupList, h, ih]

theorem lookupList_map_update {α : Type} (base upd : List (String × α))
    (k : String) :
    lookupList
      (base.map fun kv =>
        match lookupList upd kv.1 with
        | some v => (kv.1, v)
        | none => kv) k =
      match lookupList base k with
      | none => none
      | some v0 =>
        some (match lookupList upd k with
              | some v => v
              | none => v0) := by
  induction base with
  | nil => simp [lookupList]
  | cons hd tl ih =>
    by_cases h : hd.1 = k
    · subst h
      cases hupd : lookupList upd hd.1 <;>
        simp [lookupList, hupd]
    · cases hupd : lookupList upd hd.1 <;>
        simp [lookupList, h, hupd, ih]

theorem lookupList_filter_of_mem {α : Type} (base upd : List (String × α))
    (k : String) (v0 : α) (h : lookupList base k = some v0) :
    lookupList (upd.filter fun kv => (lookupList base kv.1).isNone) k =
      none := by
  induction upd with
  | nil => simp [lookupList]
  | cons hd tl ih =>
    by_cases hk : hd.1 = k
    · subst hk
      simp [List.filter, h, ih]
    · by_cases hbase : (lookupList base hd.1).isNone <;>
        simp [List.filter, hbase, lookupList, hk, ih]

theorem lookupList_filter_of_not_mem {α : Type} (base upd : List (String × α))
    (k : String) (h : lookupList base k = none) :
    lookupList (upd.filter fun kv => (lookupList base kv.1).isNone) k =
      lookupList upd k := by
  induction upd with
  | nil => simp [lookupList]
  | cons hd tl ih =>
    by_cases hk : hd.1 = k
    · subst hk
      simp [List.filter, h, lookupList, ih]
    · by_cases hbase : (lookupList base hd.1).isNone <;>
        simp [List.filter, hbase, lookupList, hk, ih]

/-- The merge law of `dict.update`: a key takes its value from the
update when present there, and keeps the base value otherwise. -/
theorem lookupList_dictUpdate {α : Type} (base upd : List (String × α))
    (k : String) :
    lookupList (dictUpdate base upd) k =
      match lookupList upd k with
      | some v => some v
      | none => lookupList base k := by
  unfold dictUpdate
  rw [lookupList_append, lookupList_map_update]
  cases hbase : lookupList base k with
  | none =>
    rw [lookupList_filter_of_not_mem base upd k hbase]
    cases lookupList upd k <;> simp
  | some v0 =>
    rw [lookupList_filter_of_mem base upd k v0 hbase]
    cases lookupList upd k <;> simp

/-- Every registry code is already uppercase, so `pyUpper` fixes it. -/
theorem pyUpper_of_supported : ∀ c ∈ supportedCodes, pyUpper c = c := by
  decide

theorem lookupList_map_value {α β : Type} (l : List (String × α))
    (f : α → β) (k : String) :
    lookupList (l.map fun kv => (kv.1, f kv.2)) k =
      (lookupList l k).map f := by
  induction l with
  | nil => simp [lookupList]
  | cons hd tl ih =>
    by_cases h : hd.1 = k <;> simp [lookupList, h, ih]

theorem le_foldl_max (xs : List Int) (x : Int) :
    x ≤ xs.foldl max x ∧ ∀ y ∈ xs, y ≤ xs.foldl max x := by
  induction xs generalizing x with
  | nil => simp
  | cons z zs ih =>
    refine ⟨le_trans (le_max_left x z) (ih (max x z)).1, ?_⟩
    intro y hy
    rcases List.mem_cons.mp hy with rfl | hy2
    · exact le_trans (le_max_right x y) (ih (max x y)).1
    · exact (ih (max x z)).2 y hy2

theorem lt_pyMaxD_succ (l : List Int) : ∀ y ∈ l, y < pyMaxD l 0 + 1 := by
  intro y hy
  cases l with
  | nil => cases hy
  | cons x xs =>
    have h := le_foldl_max xs x
    rcases List.mem_cons.mp hy with rfl | hy2
    · exact Int.lt_add_one_iff.mpr h.1
    · exact Int.lt_add_one_iff.mpr (h.2 y hy2)

/-! ## Reduction lemmas for the trading service -/

theorem validate_amount_pos (a : Rat) (ha : 0 < a) :
    validate_amount a = .ok a := by
  simp [validate_amount, not_le.mpr ha]

theorem get_currency_of_supported (code : String)
    (h : pyUpper code ∈ supportedCodes) :
    get_currency code = .ok (pyUpper code) := by
  simp [get_currency, h]

theorem get_cached_rate_found (cache : RatesCache) (ttl now : Int)
    (from_cur to_cur : String) (r : Rat) (ts : Int) (src : String)
    (hk : lookupList cache.pairs
      (pyUpper from_cur ++ "_" ++ pyUpper to_cur) =
      some ⟨some r, .parsed ts, src⟩)
    (hr : ¬ r = 0) :
    _get_cached_rate cache ttl now from_cur to_cur =
      (some r, some ts, decide (now - ts < ttl)) := by
  simp [_get_cached_rate, hk, hr]

theorem prepare_buy_success (port : Portfolio) (cache : RatesCache)
    (ttl now : Int) (code : String) (a : Rat) (base : String)
    (r : Rat) (ts : Int) (src : String) (wb wx : Wallet)
    (ha : 0 < a) (hcode : pyUpper code ∈ supportedCodes)
    (hk : lookupList cache.pairs (pyUpper code ++ "_" ++ pyUpper base) =
      some ⟨some r, .parsed ts, src⟩)
    (hr : ¬ r = 0) (hfresh : now - ts < ttl)
    (hwb : lookupList port.wallets (pyUpper base) = some wb)
    (hwx : lookupList port.wallets (pyUpper code) = some wx)
    (hfunds : a * r ≤ wb.balance) :
    _prepare_transaction port cache ttl now code a base .buy =
      .ok ⟨a, r, port, pyUpper base, pyUpper code, true⟩ := by
  have hup : pyUpper (pyUpper code) = pyUpper code :=
    pyUpper_of_supported _ hcode
  have hk2 : lookupList cache.pairs
      (pyUpper (pyUpper code) ++ "_" ++ pyUpper base) =
      some ⟨some r, .parsed ts, src⟩ := by rw [hup]; exact hk
  have hrate := get_cached_rate_found cache ttl now (pyUpper code) base r ts
    src hk2 hr
  rw [decide_eq_true hfresh] at hrate
  simp only [_prepare_transaction, validate_amount_pos a ha,
    get_currency_of_supported code hcode, hrate, Portfolio.get_or_create,
    hup, hwb, hwx]
  simp [not_lt.mpr hfunds]

theorem prepare_sell_success (port : Portfolio) (cache : RatesCache)
    (ttl now : Int) (code : String) (a : Rat) (base : String)
    (r : Rat) (ts : Int) (src : String) (wb wx : Wallet)
    (ha : 0 < a) (hcode : pyUpper code ∈ supportedCodes)
    (hk : lookupList cache.pairs (pyUpper code ++ "_" ++ pyUpper base) =
      some ⟨some r, .parsed ts, src⟩)
    (hr : ¬ r = 0) (hfresh : now - ts < ttl)
    (hwb : lookupList port.wallets (pyUpper base) = some wb)
    (hwx : lookupList port.wallets (pyUpper code) = some wx)
    (hfunds : a ≤ wx.balance) :
    _prepare_transaction port cache ttl now code a base .sell =
      .ok ⟨a, r, port, pyUpper code, pyUpper base, true⟩ := by
  have hup : pyUpper (pyUpper code) = pyUpper code :=
    pyUpper_of_supported _ hcode
  have hk2 : lookupList cache.pairs
      (pyUpper (pyUpper code) ++ "_" ++ pyUpper base) =
      some ⟨some r, .parsed ts, src⟩ := by rw [hup]; exact hk
  have hrate := get_cached_rate_found cache ttl now (pyUpper code) base r ts
    src hk2 hr
  rw [decide_eq_true hfresh] at hrate
  simp only [_prepare_transaction, validate_amount_pos a ha,
    get_currency_of_supported code hcode, hrate, Portfolio.get_or_create,
    hup, hwb, hwx]
  simp [not_lt.mpr hfunds]

theorem buy_currency_success (port : Portfolio) (cache : RatesCache)
    (ttl now : Int) (code : String) (a : Rat) (base : String)
    (r : Rat) (ts : Int) (src : String) (wb wx : Wallet)
    (ha : 0 < a) (hcode : pyUpper code ∈ supportedCodes)
    (hk : lookupList cache.pairs (pyUpper code ++ "_" ++ pyUpper base) =
      some ⟨some r, .parsed ts, src⟩)
    (hr : 0 < r) (hfresh : now - ts < ttl)
    (hwb : lookupList port.wallets (pyUpper base) = some wb)
    (hwx : lookupList port.wallets (pyUpper code) = some wx)
    (hfunds : a * r ≤ wb.balance)
    (hne : pyUpper code ≠ pyUpper base) :
    buy_currency port cache ttl now code a base =
      (⟨port.user_id,
        updateList
          (updateList port.wallets (pyUpper base)
            ⟨wb.currency_code, wb.balance - a * r⟩)
          (pyUpper code) ⟨wx.currency_code, wx.balance + a⟩⟩,
       .error .attributeError) := by
  have hprep := prepare_buy_success port cache ttl now code a base r ts src
    wb wx ha hcode hk (ne_of_gt hr) hfresh hwb hwx hfunds
  have hwd : wb.withdraw (a * r) =
      .ok ⟨wb.currency_code, wb.balance - a * r⟩ := by
    simp [Wallet.withdraw, not_le.mpr (mul_pos ha hr), not_lt.mpr hfunds]
  have hdep : wx.deposit a = .ok ⟨wx.currency_code, wx.balance + a⟩ := by
    simp [Wallet.deposit, not_le.mpr ha]
  simp only [buy_currency, hprep, Portfolio.withdrawAt, hwb, hwd,
    Portfolio.setWallet, Portfolio.depositAt,
    lookupList_updateList_ne port.wallets (pyUpper base) (pyUpper code) _ hne,
    hwx, hdep, strAttrCode]

theorem prepare_buy_success_new_target (port : Portfolio)
    (cache : RatesCache) (ttl now : Int) (code : String) (a : Rat)
    (base : String) (r : Rat) (ts : Int) (src : String) (wb : Wallet)
    (ha : 0 < a) (hcode : pyUpper code ∈ supportedCodes)
    (hk : lookupList cache.pairs (pyUpper code ++ "_" ++ pyUpper base) =
      some ⟨some r, .parsed ts, src⟩)
    (hr : ¬ r = 0) (hfresh : now - ts < ttl)
    (hwb : lookupList port.wallets (pyUpper base) = some wb)
    (hwx : lookupList port.wallets (pyUpper code) = none)
    (hfunds : a * r ≤ wb.balance) :
    _prepare_transaction port cache ttl now code a base .buy =
      .ok ⟨a, r,
           ⟨port.user_id,
            port.wallets ++ [(pyUpper code, ⟨pyUpper code, 0⟩)]⟩,
           pyUpper base, pyUpper code, true⟩ := by
  have hup : pyUpper (pyUpper code) = pyUpper code :=
    pyUpper_of_supported _ hcode
  have hk2 : lookupList cache.pairs
      (pyUpper (pyUpper code) ++ "_" ++ pyUpper base) =
      some ⟨some r, .parsed ts, src⟩ := by rw [hup]; exact hk
  have hrate := get_cached_rate_found cache ttl now (pyUpper code) base r ts
    src hk2 hr
  rw [decide_eq_true hfresh] at hrate
  simp only [_prepare_transaction, validate_amount_pos a ha,
    get_currency_of_supported code hcode, hrate, Portfolio.get_or_create,
    hup, hwb, hwx]
  simp [not_lt.mpr hfunds]

theorem buy_currency_success_new_target (port : Portfolio)
    (cache : RatesCache) (ttl now : Int) (code : String) (a : Rat)
    (base : String) (r : Rat) (ts : Int) (src : String) (wb : Wallet)
    (ha : 0 < a) (hcode : pyUpper code ∈ supportedCodes)
    (hk : lookupList cache.pairs (pyUpper code ++ "_" ++ pyUpper base) =
      some ⟨some r, .parsed ts, src⟩)
    (hr : 0 < r) (hfresh : now - ts < ttl)
    (hwb : lookupList port.wallets (pyUpper base) = some wb)
    (hwx : lookupList port.wallets (pyUpper code) = none)
    (hfunds : a * r ≤ wb.balance)
    (hne : pyUpper code ≠ pyUpper base) :
    buy_currency port cache ttl now code a base =
      (⟨port.user_id,
        updateList
          (updateList
            (port.wallets ++ [(pyUpper code, ⟨pyUpper code, 0⟩)])
            (pyUpper base) ⟨wb.currency_code, wb.balance - a * r⟩)
          (pyUpper code) ⟨pyUpper code, (0 : Rat) + a⟩⟩,
       .error .attributeError) := by
  have hprep := prepare_buy_success_new_target port cache ttl now code a
    base r ts src wb ha hcode hk (ne_of_gt hr) hfresh hwb hwx hfunds
  have hwb2 : lookupList
      (port.wallets ++ [(pyUpper code, (⟨pyUpper code, 0⟩ : Wallet))])
      (pyUpper base) = some wb := by
    rw [lookupList_append, hwb]
  have hwx2 : lookupList
      (port.wallets ++ [(pyUpper code, (⟨pyUpper code, 0⟩ : Wallet))])
      (pyUpper code) = some ⟨pyUpper code, 0⟩ := by
    rw [lookupList_append, hwx]
    simp [lookupList]
  have hwd : wb.withdraw (a * r) =
      .ok ⟨wb.currency_code, wb.balance - a * r⟩ := by
    simp [Wallet.withdraw, not_le.mpr (mul_pos ha hr), not_lt.mpr hfunds]
  have hdep : (⟨pyUpper code, 0⟩ : Wallet).deposit a =
      .ok ⟨pyUpper code, 0 + a⟩ := by
    simp [Wallet.deposit, not_le.mpr ha]
  simp only [buy_currency, hprep, Portfolio.withdrawAt, hwb2, hwd,
    Portfolio.setWallet, Portfolio.depositAt,
    lookupList_updateList_ne _ (pyUpper base) (pyUpper code) _ hne,
    hwx2, hdep, strAttrCode]

theorem sell_currency_success (port : Portfolio) (cache : RatesCache)
    (ttl now : Int) (code : String) (a : Rat) (base : String)
    (r : Rat) (ts : Int) (src : String) (wb wx : Wallet)
    (ha : 0 < a) (hcode : pyUpper code ∈ supportedCodes)
    (hk : lookupList cache.pairs (pyUpper code ++ "_" ++ pyUpper base) =
      some ⟨some r, .parsed ts, src⟩)
    (hr : 0 < r) (hfresh : now - ts < ttl)
    (hwb : lookupList port.wallets (pyUpper base) = some wb)
    (hwx : lookupList port.wallets (pyUpper code) = some wx)
    (hfunds : a ≤ wx.balance)
    (hne : pyUpper code ≠ pyUpper base) :
    sell_currency port cache ttl now code a base =
      (⟨port.user_id,
        updateList
          (updateList port.wallets (pyUpper code)
            ⟨wx.currency_code, wx.balance - a⟩)
          (pyUpper base) ⟨wb.currency_code, wb.balance + a * r⟩⟩,
       .ok ⟨pyUpper code, a, r, a * r, base, wx.balance - a,
            wb.balance + a * r, true⟩) := by
  have hprep := prepare_sell_success port cache ttl now code a base r ts src
    wb wx ha hcode hk (ne_of_gt hr) hfresh hwb hwx hfunds
  have hwd : wx.withdraw a = .ok ⟨wx.currency_code, wx.balance - a⟩ := by
    simp [Wallet.withdraw, not_le.mpr ha, not_lt.mpr hfunds]
  have hdep : wb.deposit (a * r) =
      .ok ⟨wb.currency_code, wb.balance + a * r⟩ := by
    simp [Wallet.deposit, not_le.mpr (mul_pos ha hr)]
  have hne2 : pyUpper base ≠ pyUpper code := Ne.symm hne
  simp only [sell_currency, hprep, Portfolio.withdrawAt, hwx, hwd,
    Portfolio.setWallet, Portfolio.depositAt,
    lookupList_updateList_ne port.wallets (pyUpper code) (pyUpper base) _
      hne2,
    hwb, hdep, Portfolio.balanceAt, lookupList_updateList_self,
    lookupList_updateList_ne _ (pyUpper base) (pyUpper code) _ hne]

/-! ## Claim theorems -/

/-- C10: every load operation on the persisted stores returns its empty
default (empty list, or empty pairs with absent `last_refresh`) when the
backing file is missing or holds unparseable JSON — the load functions
are total, so no error is raised — and the next save unconditionally
replaces whatever was in the file. -/
theorem c10_load_defaults_on_missing_or_corrupt :
    load_users .missing = [] ∧ load_users .unparseable = [] ∧
    load_portfolios .missing = [] ∧ load_portfolios .unparseable = [] ∧
    load_rates_cache .missing = ⟨[], none⟩ ∧
    load_rates_cache .unparseable = ⟨[], none⟩ ∧
    load_exchange_rates_history .missing = [] ∧
    load_exchange_rates_history .unparseable = [] ∧
    (∀ (α : Type) (file : Stored α) (data : α),
      _save_json file data = .parsed data) := by
  exact ⟨rfl, rfl, rfl, rfl, rfl, rfl, rfl, rfl, fun _ _ _ => rfl⟩

theorem listCap_spec {A : Type} (h : List A) (rec : A) :
    (h.length ≤ 1000 →
      (if (h ++ [rec]).length > 1000 then
        (h ++ [rec]).drop ((h ++ [rec]).length - 1000)
      else h ++ [rec]).length ≤ 1000) ∧
    (h.length = 1000 →
      (if (h ++ [rec]).length > 1000 then
        (h ++ [rec]).drop ((h ++ [rec]).length - 1000)
      else h ++ [rec]) = h.tail ++ [rec]) ∧
    (if (h ++ [rec]).length > 1000 then
      (h ++ [rec]).drop ((h ++ [rec]).length - 1000)
    else h ++ [rec]).getLast? = some rec := by
  refine ⟨?_, ?_, ?_⟩
  · intro hlen
    split
    · simp only [List.length_drop, List.length_append, List.length_singleton]
      omega
    · rename_i hgt
      simp only [List.length_append, List.length_singleton, Nat.not_lt] at hgt ⊢
      omega
  · intro hlen
    have hgt : (h ++ [rec]).length > 1000 := by simp [hlen]
    rw [if_pos hgt]
    have hn : (h ++ [rec]).length - 1000 = 1 := by simp [hlen]
    rw [hn, List.drop_append_of_le_length (by omega), List.drop_one]
  · split
    · rename_i hgt
      rw [List.drop_append_of_le_length
        (by simp only [List.length_append, List.length_singleton] at hgt ⊢
            omega)]
      exact List.getLast?_concat _
    · exact List.getLast?_concat _

/-- C8: appending a record through `save_exchange_rate` keeps the
history length at most 1000; when the history already holds exactly
1000 entries the oldest (head) entry is evicted; the new record is
always retained (it is the last entry of the result). -/
theorem c8_history_capped_at_1000 (history : List RateRecord)
    (from_currency to_currency : String) (rate : Rat) (source : String)
    (meta : List (String × String)) (now : String) :
    (history.length ≤ 1000 →
      (save_exchange_rate history from_currency to_currency rate source
        meta now).length ≤ 1000) ∧
    (history.length = 1000 →
      save_exchange_rate history from_currency to_currency rate source
          meta now =
        history.tail ++
          [⟨from_currency ++ "_" ++ to_currency ++ "_" ++ now,
            from_currency, to_currency, rate, now ++ "Z", source, meta⟩]) ∧
    (save_exchange_rate history from_currency to_currency rate source
        meta now).getLast? =
      some ⟨from_currency ++ "_" ++ to_currency ++ "_" ++ now,
            from_currency, to_currency, rate, now ++ "Z", source, meta⟩ :=
  listCap_spec history
    ⟨from_currency ++ "_" ++ to_currency ++ "_" ++ now,
     from_currency, to_currency, rate, now ++ "Z", source, meta⟩

theorem applyOp_nonneg (w : Wallet) (op : WalletOp) (h : 0 ≤ w.balance) :
    0 ≤ (w.applyOp op).balance := by
  cases op with
  | deposit a =>
    by_cases ha : a ≤ 0
    · simp [Wallet.applyOp, Wallet.deposit, ha, h]
    · push_neg at ha
      simp only [Wallet.applyOp, Wallet.deposit, if_neg (not_le.mpr ha)]
      exact le_trans h (by linarith)
  | withdraw a =>
    by_cases ha : a ≤ 0
    · simp [Wallet.applyOp, Wallet.withdraw, ha, h]
    · by_cases hb : w.balance < a
      · simp [Wallet.applyOp, Wallet.withdraw, ha, hb, h]
      · have hw : w.withdraw a = .ok ⟨w.currency_code, w.balance - a⟩ := by
          simp only [Wallet.withdraw, if_neg ha, if_neg hb]
        push_neg at hb
        simp only [Wallet.applyOp, hw]
        exact sub_nonneg.mpr hb

/-- C4: starting from a non-negative balance, any sequence of deposit
and withdraw operations keeps the balance non-negative; a withdrawal
exceeding the balance raises `InsufficientFundsError(available,
required, currency)` and leaves the balance unchanged; a non-positive
deposit or withdrawal raises `ValueError` and leaves the balance
unchanged. -/
theorem c4_wallet_balance_nonneg (w : Wallet) (ops : List WalletOp)
    (h : 0 ≤ w.balance) :
    0 ≤ (w.applyOps ops).balance ∧
    (∀ a : Rat, w.balance < a →
      w.withdraw a = .error (.insufficientFunds w.balance a w.currency_code) ∧
      w.applyOp (.withdraw a) = w) ∧
    (∀ a : Rat, a ≤ 0 →
      w.deposit a = .error (.valueError "Deposit amount must be positive") ∧
      w.withdraw a =
        .error (.valueError "Withdrawal amount must be positive") ∧
      w.applyOp (.deposit a) = w ∧ w.applyOp (.withdraw a) = w) := by
  refine ⟨?_, ?_, ?_⟩
  · induction ops generalizing w with
    | nil => exact h
    | cons op rest ih =>
      exact ih (w.applyOp op) (applyOp_nonneg w op h)
  · intro a hlt
    have ha : ¬ a ≤ 0 := by
      push_neg
      exact lt_of_le_of_lt h hlt
    constructor
    · simp [Wallet.withdraw, ha, hlt]
    · simp [Wallet.applyOp, Wallet.withdraw, ha, hlt]
  · intro a ha
    refine ⟨?_, ?_, ?_, ?_⟩ <;>
      simp [Wallet.deposit, Wallet.withdraw, Wallet.applyOp, ha]

/-- C4 witness: concrete run of the theorem at a wallet with balance 5. -/
theorem c4_wallet_balance_nonneg_witness :
    0 ≤ ((Wallet.mk "USD" 5).applyOps
      [.deposit 3, .withdraw 10, .withdraw 7, .deposit (-2)]).balance ∧
    (Wallet.mk "USD" 5).withdraw 10 =
      .error (.insufficientFunds 5 10 "USD") ∧
    (Wallet.mk "USD" 5).applyOp (.withdraw 10) = Wallet.mk "USD" 5 ∧
    (Wallet.mk "USD" 5).deposit (-2) =
      .error (.valueError "Deposit amount must be positive") := by
  have h := c4_wallet_balance_nonneg (Wallet.mk "USD" 5)
    [.deposit 3, .withdraw 10, .withdraw 7, .deposit (-2)] (by norm_num)
  refine ⟨h.1, (h.2.1 10 (by norm_num)).1, (h.2.1 10 (by norm_num)).2,
    (h.2.2 (-2) (by norm_num)).1⟩

/-- C9: registering a username already present in the user store fails
with the duplicate-username error (raised before any store write, so
the stores and in particular the first user's record are untouched);
a successful registration appends exactly one user record and one empty
portfolio and assigns a `user_id` strictly greater than every existing
`user_id`. -/
theorem c9_register_unique_username (users : List UserRec)
    (portfolios : List Portfolio) (username password salt now : String)
    (hashFn : String → String → String)
    (huname : ¬ (username = "" ∨ pyStrip username = ""))
    (hpwd : 4 ≤ password.length) :
    ((∃ u ∈ users, u.username = username) →
      register users portfolios username password salt now hashFn =
        .error (.duplicateUsername username)) ∧
    ((∀ u ∈ users, ¬ u.username = username) →
      register users portfolios username password salt now hashFn =
        .ok (users ++
              [⟨pyMaxD (users.map fun u => u.user_id) 0 + 1, username,
                hashFn password salt, salt, now⟩],
             portfolios ++
              [⟨pyMaxD (users.map fun u => u.user_id) 0 + 1, []⟩],
             ⟨pyMaxD (users.map fun u => u.user_id) 0 + 1, username,
              hashFn password salt, salt, now⟩) ∧
      ∀ u ∈ users,
        u.user_id < pyMaxD (users.map fun u2 => u2.user_id) 0 + 1) := by
  have hpwd2 : ¬ password.length < 4 := not_lt.mpr hpwd
  constructor
  · intro hdup
    have hany : (users.any fun u => u.username = username) = true := by
      rcases hdup with ⟨u, hu, hname⟩
      exact List.any_eq_true.mpr ⟨u, hu, decide_eq_true hname⟩
    simp [register, huname, hpwd2, hany]
  · intro hnodup
    have hany : (users.any fun u => u.username = username) = false := by
      rw [List.any_eq_false]
      intro u hu
      exact fun hdec => hnodup u hu (of_decide_eq_true hdec)
    constructor
    · simp [register, huname, hpwd2, hany]
    · intro u hu
      exact lt_pyMaxD_succ _ u.user_id (List.mem_map.mpr ⟨u, hu, rfl⟩)

/-- C9 witness: duplicate registration of "alice" fails; registering
"bob" against the one-user store appends records with a larger id. -/
theorem c9_register_unique_username_witness :
    register [sampleUser] [] "alice" "pass" "s2" "d2" (fun p _ => p) =
      .error (.duplicateUsername "alice") ∧
    register [sampleUser] [] "bob" "pass" "s2" "d2" (fun p _ => p) =
      .ok ([sampleUser, ⟨2, "bob", "pass", "s2", "d2"⟩],
           [⟨2, []⟩], ⟨2, "bob", "pass", "s2", "d2"⟩) := by
  constructor
  · exact (c9_register_unique_username [sampleUser] [] "alice" "pass" "s2"
      "d2" (fun p _ => p) (by decide) (by decide)).1
      ⟨sampleUser, by simp, rfl⟩
  · exact ((c9_register_unique_username [sampleUser] [] "bob" "pass" "s2"
      "d2" (fun p _ => p) (by decide) (by decide)).2
      (by intro u hu; simp at hu; subst hu; decide)).1

/-- C8 witness: at a history of exactly 1000 records the cap applies and
the head record is evicted. -/
theorem c8_history_capped_at_1000_witness :
    (save_exchange_rate (List.replicate 1000 sampleRecord) "BTC" "USD"
      60000 "parser" [] "t1").length ≤ 1000 ∧
    save_exchange_rate (List.replicate 1000 sampleRecord) "BTC" "USD"
        60000 "parser" [] "t1" =
      (List.replicate 1000 sampleRecord).tail ++
        [⟨"BTC_USD_t1", "BTC", "USD", 60000, "t1Z", "parser", []⟩] := by
  have h := c8_history_capped_at_1000 (List.replicate 1000 sampleRecord)
    "BTC" "USD" 60000 "parser" [] "t1"
  exact ⟨h.1 (by simp only [List.length_replicate, le_refl]),
    h.2.1 (by simp only [List.length_replicate])⟩

theorem lookupList_map_rateEntry (rates : List (String × Rat))
    (current_time : Int) (source : String) (k : String) :
    lookupList
      (rates.map fun kv =>
        (kv.1, (⟨some kv.2, .parsed current_time, source⟩ : PairInfoJson)))
      k =
    (lookupList rates k).map fun r =>
      (⟨some r, .parsed current_time, source⟩ : PairInfoJson) := by
  induction rates with
  | nil => simp [lookupList]
  | cons hd tl ih =>
    by_cases h : hd.1 = k <;> simp [lookupList, h, ih]

/-- C7: `save_current_rates` merges the new rate mapping into the
existing pairs: keys absent from the new mapping keep their previous
entry, keys present in it hold the newly written rate, timestamp and
source, the resulting key set is the union of the old and new key sets,
and `last_refresh` is set to the write time. -/
theorem c7_put_many_merges (cache : RatesCache)
    (rates : List (String × Rat)) (source : String) (current_time : Int) :
    (save_current_rates cache rates source current_time).last_refresh =
      some current_time ∧
    (∀ k, lookupList rates k = none →
      lookupList (save_current_rates cache rates source current_time).pairs
        k = lookupList cache.pairs k) ∧
    (∀ k r, lookupList rates k = some r →
      lookupList (save_current_rates cache rates source current_time).pairs
        k = some ⟨some r, .parsed current_time, source⟩) ∧
    (∀ k,
      (lookupList (save_current_rates cache rates source current_time).pairs
        k).isSome ↔
      ((lookupList cache.pairs k).isSome ∨ (lookupList rates k).isSome)) := by
  have hpairs : (save_current_rates cache rates source current_time).pairs =
      dictUpdate cache.pairs
        (rates.map fun kv =>
          (kv.1, (⟨some kv.2, .parsed current_time, source⟩ : PairInfoJson))) :=
    rfl
  refine ⟨rfl, ?_, ?_, ?_⟩
  · intro k hk
    rw [hpairs, lookupList_dictUpdate, lookupList_map_rateEntry, hk]
    rfl
  · intro k r hk
    rw [hpairs, lookupList_dictUpdate, lookupList_map_rateEntry, hk]
    rfl
  · intro k
    rw [hpairs, lookupList_dictUpdate, lookupList_map_rateEntry]
    cases lookupList rates k <;> cases hc : lookupList cache.pairs k <;>
      simp [hc]

/-- C7 witness: merging two new pairs into the BTC_USD cache keeps the
unrelated BTC_USD entry and writes the new ETH_USD entry. -/
theorem c7_put_many_merges_witness :
    lookupList (save_current_rates btcUsdCache
        [("ETH_USD", 2000), ("BTC_EUR", 55000)] "s" 42).pairs "BTC_USD" =
      lookupList btcUsdCache.pairs "BTC_USD" ∧
    lookupList (save_current_rates btcUsdCache
        [("ETH_USD", 2000), ("BTC_EUR", 55000)] "s" 42).pairs "ETH_USD" =
      some ⟨some 2000, .parsed 42, "s"⟩ := by
  have h := c7_put_many_merges btcUsdCache
    [("ETH_USD", 2000), ("BTC_EUR", 55000)] "s" 42
  exact ⟨h.2.1 "BTC_USD" rfl, h.2.2.1 "ETH_USD" 2000 rfl⟩

/-- C5 (amended): the cache lookup returns `(None, None, False)` when
the pair is absent, the `rate` field is absent, the stored rate is zero
(Python falsiness), or `updated_at` is missing or unparseable; in every
other case — including a *negative* stored rate — it returns the stored
rate and `updated_at` together with the freshness flag. -/
theorem c5_cache_get_filters_only_falsy_rate (cache : RatesCache)
    (ttl now : Int) (from_cur to_cur : String) :
    (lookupList cache.pairs (pyUpper from_cur ++ "_" ++ pyUpper to_cur) =
        none →
      _get_cached_rate cache ttl now from_cur to_cur = (none, none, false)) ∧
    (∀ info,
      lookupList cache.pairs (pyUpper from_cur ++ "_" ++ pyUpper to_cur) =
        some info →
      ((info.rate = none →
        _get_cached_rate cache ttl now from_cur to_cur =
          (none, none, false)) ∧
       (info.rate = some 0 →
        _get_cached_rate cache ttl now from_cur to_cur =
          (none, none, false)) ∧
       (info.updated_at = .missing →
        _get_cached_rate cache ttl now from_cur to_cur =
          (none, none, false)) ∧
       (info.updated_at = .malformed →
        _get_cached_rate cache ttl now from_cur to_cur =
          (none, none, false)) ∧
       (∀ r ts, info.rate = some r → ¬ r = 0 →
        info.updated_at = .parsed ts →
        _get_cached_rate cache ttl now from_cur to_cur =
          (some r, some ts, decide (now - ts < ttl))))) := by
  refine ⟨?_, ?_⟩
  · intro hk
    simp [_get_cached_rate, hk]
  · intro info hk
    refine ⟨?_, ?_, ?_, ?_, ?_⟩
    · intro hrate
      simp [_get_cached_rate, hk, hrate]
    · intro hrate
      simp [_get_cached_rate, hk, hrate]
    · intro hupd
      simp only [_get_cached_rate, hk, hupd]
      cases hrate : info.rate with
      | none => rfl
      | some r =>
        by_cases hr : r = 0 <;> simp [hr]
    · intro hupd
      simp only [_get_cached_rate, hk, hupd]
      cases hrate : info.rate with
      | none => rfl
      | some r =>
        by_cases hr : r = 0 <;> simp [hr]
    · intro r ts hrate hr hupd
      simp [_get_cached_rate, hk, hrate, hr, hupd]

/-- C5 counterexample: the claim says a non-positive stored rate is
filtered to `None`, but the code only tests Python falsiness
(`if not rate`): with the stored rate `-1` (which satisfies rate ≤ 0)
the lookup returns the rate instead of nothing. -/
theorem c5_counterexample_negative_rate :
    lookupList negRateCache.pairs "BTC_USD" =
      some ⟨some (-1), .parsed 0, "parser"⟩ ∧
    ((-1 : Rat) ≤ 0) ∧
    (_get_cached_rate negRateCache 300 0 "BTC" "USD").1 = some (-1) := by
  refine ⟨rfl, by norm_num, rfl⟩

/-- C5 witness: the absent-pair branch at an empty cache, and the
value-returning branch at the negative-rate cache. -/
theorem c5_cache_get_filters_only_falsy_rate_witness :
    _get_cached_rate ⟨[], none⟩ 300 0 "BTC" "USD" = (none, none, false) ∧
    _get_cached_rate negRateCache 300 0 "BTC" "USD" =
      (some (-1), some 0, true) := by
  constructor
  · exact (c5_cache_get_filters_only_falsy_rate ⟨[], none⟩ 300 0 "BTC"
      "USD").1 rfl
  · have h := (c5_cache_get_filters_only_falsy_rate negRateCache 300 0
      "BTC" "USD").2 ⟨some (-1), .parsed 0, "parser"⟩ rfl
    have h2 := h.2.2.2.2 (-1) 0 rfl (by norm_num) rfl
    rw [h2]
    norm_num

/-- C2 (documents the code bug): on the spec's concrete scenario —
alice's USD wallet at 1000.00, fresh BTC_USD rate 60000.0, buy of
0.01 BTC with base USD — the code does debit 600.00 (leaving 400.00),
credit 0.01 BTC and persist the portfolio, but then raises
`AttributeError` (the result dict evaluates `currency_code.code` on a
`str`) instead of returning the transaction result the spec (and the
function's own docstring and caller) promise. -/
theorem c2_buy_persists_then_raises_attribute_error :
    buy_currency alicePortfolio btcUsdCache 300 0 "BTC" (1/100) "USD" =
      (⟨1, [("USD", ⟨"USD", 400⟩), ("BTC", ⟨"BTC", 1/100⟩)]⟩,
       .error .attributeError) := by
  have h := buy_currency_success_new_target alicePortfolio btcUsdCache 300 0
    "BTC" (1/100) "USD" 60000 0 "parser" ⟨"USD", 1000⟩
    (by norm_num) (by decide) (by decide) (by norm_num) (by decide)
    (by decide) (by decide) (by norm_num) (by decide)
  have hB : pyUpper "BTC" = "BTC" := by decide
  have hU : pyUpper "USD" = "USD" := by decide
  rw [h]
  norm_num [alicePortfolio, updateList, hB, hU]
  decide

/-- C1: for both trade directions, a missing cached rate for the pair
(currency, base) makes the trade fail with the rate-unavailable error
and a cached rate whose `updated_at` is older than the TTL
(`now - updated_at < TTL` being freshness) makes it fail with the
rate-stale error; in both cases the persisted portfolio is returned
unchanged, so no wallet balance is mutated. -/
theorem c1_trade_gated_on_rate_freshness (port : Portfolio)
    (cache : RatesCache) (ttl now : Int) (code : String) (amount : Rat)
    (base : String) (ha : 0 < amount)
    (hcode : pyUpper code ∈ supportedCodes) :
    (lookupList cache.pairs (pyUpper code ++ "_" ++ pyUpper base) = none →
      buy_currency port cache ttl now code amount base =
        (port, .error .rateUnavailable) ∧
      sell_currency port cache ttl now code amount base =
        (port, .error .rateUnavailable)) ∧
    (∀ r ts src,
      lookupList cache.pairs (pyUpper code ++ "_" ++ pyUpper base) =
        some ⟨some r, .parsed ts, src⟩ →
      ¬ r = 0 → ttl ≤ now - ts →
      buy_currency port cache ttl now code amount base =
        (port, .error .rateStale) ∧
      sell_currency port cache ttl now code amount base =
        (port, .error .rateStale)) := by
  have hup : pyUpper (pyUpper code) = pyUpper code :=
    pyUpper_of_supported _ hcode
  constructor
  · intro hk
    have hk2 : lookupList cache.pairs
        (pyUpper (pyUpper code) ++ "_" ++ pyUpper base) = none := by
      rw [hup]; exact hk
    have hrate : _get_cached_rate cache ttl now (pyUpper code) base =
        (none, none, false) := by
      simp [_get_cached_rate, hk2]
    constructor <;>
      simp only [buy_currency, sell_currency, _prepare_transaction,
        validate_amount_pos amount ha, get_currency_of_supported code hcode,
        hrate]
  · intro r ts src hk hr hstale
    have hk2 : lookupList cache.pairs
        (pyUpper (pyUpper code) ++ "_" ++ pyUpper base) =
        some ⟨some r, .parsed ts, src⟩ := by
      rw [hup]; exact hk
    have hrate : _get_cached_rate cache ttl now (pyUpper code) base =
        (some r, some ts, false) := by
      simp [_get_cached_rate, hk2, hr, decide_eq_false (not_lt.mpr hstale)]
    constructor <;>
      simp only [buy_currency, sell_currency, _prepare_transaction,
        validate_amount_pos amount ha, get_currency_of_supported code hcode,
        hrate] <;>
      simp

/-- C1 witness: with an empty cache both directions fail unavailable;
with the BTC_USD rate cached at time 0 and `now = 600 ≥ TTL = 300`
both directions fail stale; alice's portfolio is unchanged each time. -/
theorem c1_trade_gated_on_rate_freshness_witness :
    buy_currency alicePortfolio ⟨[], none⟩ 300 0 "BTC" 1 "USD" =
      (alicePortfolio, .error .rateUnavailable) ∧
    sell_currency alicePortfolio ⟨[], none⟩ 300 0 "BTC" 1 "USD" =
      (alicePortfolio, .error .rateUnavailable) ∧
    buy_currency alicePortfolio btcUsdCache 300 600 "BTC" 1 "USD" =
      (alicePortfolio, .error .rateStale) ∧
    sell_currency alicePortfolio btcUsdCache 300 600 "BTC" 1 "USD" =
      (alicePortfolio, .error .rateStale) := by
  have h1 := (c1_trade_gated_on_rate_freshness alicePortfolio ⟨[], none⟩
    300 0 "BTC" 1 "USD" (by norm_num) (by decide)).1 (by decide)
  have h2 := (c1_trade_gated_on_rate_freshness alicePortfolio btcUsdCache
    300 600 "BTC" 1 "USD" (by norm_num) (by decide)).2 60000 0 "parser"
    (by decide) (by norm_num) (by decide)
  exact ⟨h1.1, h1.2, h2.1, h2.2⟩

/-- C3: for both directions, when the debit wallet's balance (0 for a
wallet not yet created) is strictly below the required amount
(`amount * rate` for buy, `amount` for sell) the trade fails with
`InsufficientFundsError{available, required, currency}` and the
persisted portfolio is returned unchanged — no partial execution. -/
theorem c3_insufficient_funds_aborts_trade (port : Portfolio)
    (cache : RatesCache) (ttl now : Int) (code : String) (amount : Rat)
    (base : String) (r : Rat) (ts : Int) (src : String)
    (ha : 0 < amount) (hcode : pyUpper code ∈ supportedCodes)
    (hk : lookupList cache.pairs (pyUpper code ++ "_" ++ pyUpper base) =
      some ⟨some r, .parsed ts, src⟩)
    (hr : ¬ r = 0) (hfresh : now - ts < ttl) :
    (port.balanceAt (pyUpper base) < amount * r →
      buy_currency port cache ttl now code amount base =
        (port, .error (.insufficientFunds (port.balanceAt (pyUpper base))
          (amount * r) base))) ∧
    (port.balanceAt (pyUpper code) < amount →
      sell_currency port cache ttl now code amount base =
        (port, .error (.insufficientFunds (port.balanceAt (pyUpper code))
          amount (pyUpper code)))) := by
  have hup : pyUpper (pyUpper code) = pyUpper code :=
    pyUpper_of_supported _ hcode
  have hk2 : lookupList cache.pairs
      (pyUpper (pyUpper code) ++ "_" ++ pyUpper base) =
      some ⟨some r, .parsed ts, src⟩ := by
    rw [hup]; exact hk
  have hrate := get_cached_rate_found cache ttl now (pyUpper code) base r ts
    src hk2 hr
  rw [decide_eq_true hfresh] at hrate
  constructor
  · intro hlow
    cases hwb : lookupList port.wallets (pyUpper base) with
    | some wb =>
      have hbal : port.balanceAt (pyUpper base) = wb.balance := by
        simp [Portfolio.balanceAt, hwb]
      rw [hbal] at hlow ⊢
      simp only [buy_currency, _prepare_transaction,
        validate_amount_pos amount ha, get_currency_of_supported code hcode,
        hrate, Portfolio.get_or_create, hup, hwb]
      simp [hlow]
    | none =>
      have hbal : port.balanceAt (pyUpper base) = 0 := by
        simp [Portfolio.balanceAt, hwb]
      rw [hbal] at hlow ⊢
      simp only [buy_currency, _prepare_transaction,
        validate_amount_pos amount ha, get_currency_of_supported code hcode,
        hrate, Portfolio.get_or_create, hup, hwb]
      simp [hlow]
  · intro hlow
    cases hwx : lookupList port.wallets (pyUpper code) with
    | some wx =>
      have hbal : port.balanceAt (pyUpper code) = wx.balance := by
        simp [Portfolio.balanceAt, hwx]
      rw [hbal] at hlow ⊢
      simp only [sell_currency, _prepare_transaction,
        validate_amount_pos amount ha, get_currency_of_supported code hcode,
        hrate, Portfolio.get_or_create, hup, hwx]
      simp [hlow]
    | none =>
      have hbal : port.balanceAt (pyUpper code) = 0 := by
        simp [Portfolio.balanceAt, hwx]
      rw [hbal] at hlow ⊢
      simp only [sell_currency, _prepare_transaction,
        validate_amount_pos amount ha, get_currency_of_supported code hcode,
        hrate, Portfolio.get_or_create, hup, hwx]
      simp [hlow]

/-- C3 witness: buying 0.01 BTC at 60000 with only 100 USD fails with
`InsufficientFunds{100, 600, USD}`; selling 1 BTC with no BTC wallet
fails with `InsufficientFunds{0, 1, BTC}`; the portfolio is unchanged. -/
theorem c3_insufficient_funds_aborts_trade_witness :
    buy_currency ⟨1, [("USD", ⟨"USD", 100⟩)]⟩ btcUsdCache 300 0 "BTC"
        (1/100) "USD" =
      (⟨1, [("USD", ⟨"USD", 100⟩)]⟩,
       .error (.insufficientFunds 100 600 "USD")) ∧
    sell_currency alicePortfolio btcUsdCache 300 0 "BTC" 1 "USD" =
      (alicePortfolio, .error (.insufficientFunds 0 1 "BTC")) := by
  have hB : pyUpper "BTC" = "BTC" := by decide
  have hU : pyUpper "USD" = "USD" := by decide
  constructor
  · have h := (c3_insufficient_funds_aborts_trade
      ⟨1, [("USD", ⟨"USD", 100⟩)]⟩ btcUsdCache 300 0 "BTC" (1/100) "USD"
      60000 0 "parser" (by norm_num) (by decide) (by decide) (by norm_num)
      (by decide)).1
      (by norm_num [Portfolio.balanceAt, lookupList, hU])
    rw [h]
    norm_num [Portfolio.balanceAt, lookupList, hU]
  · have hbal : alicePortfolio.balanceAt (pyUpper "BTC") = 0 := by decide
    have h := (c3_insufficient_funds_aborts_trade alicePortfolio
      btcUsdCache 300 0 "BTC" 1 "USD" 60000 0 "parser" (by norm_num)
      (by decide) (by decide) (by norm_num) (by decide)).2
      (by rw [hbal]; norm_num)
    rw [h, hbal, hB]

/-- C6: with a fresh positive cached rate for (code, base), buying an
amount and then selling the same amount at the same cached rate returns
both the base-currency wallet and the target-currency wallet to their
pre-trade balances. -/
theorem c6_buy_then_sell_round_trip (port : Portfolio)
    (cache : RatesCache) (ttl now : Int) (code base : String) (a : Rat)
    (r : Rat) (ts : Int) (src : String) (wb wx : Wallet)
    (ha : 0 < a) (hcode : pyUpper code ∈ supportedCodes)
    (hk : lookupList cache.pairs (pyUpper code ++ "_" ++ pyUpper base) =
      some ⟨some r, .parsed ts, src⟩)
    (hr : 0 < r) (hfresh : now - ts < ttl)
    (hne : pyUpper code ≠ pyUpper base)
    (hwb : lookupList port.wallets (pyUpper base) = some wb)
    (hwx : lookupList port.wallets (pyUpper code) = some wx)
    (hfunds : a * r ≤ wb.balance) (hx0 : 0 ≤ wx.balance) :
    ((sell_currency (buy_currency port cache ttl now code a base).1 cache
        ttl now code a base).1).balanceAt (pyUpper base) = wb.balance ∧
    ((sell_currency (buy_currency port cache ttl now code a base).1 cache
        ttl now code a base).1).balanceAt (pyUpper code) = wx.balance := by
  rw [buy_currency_success port cache ttl now code a base r ts src wb wx
    ha hcode hk hr hfresh hwb hwx hfunds hne]
  have hwb1 : lookupList
      (updateList
        (updateList port.wallets (pyUpper base)
          ⟨wb.currency_code, wb.balance - a * r⟩)
        (pyUpper code) ⟨wx.currency_code, wx.balance + a⟩)
      (pyUpper base) =
      some ⟨wb.currency_code, wb.balance - a * r⟩ := by
    rw [lookupList_updateList_ne _ (pyUpper code) (pyUpper base) _
      (Ne.symm hne), lookupList_updateList_self]
  have hwx1 : lookupList
      (updateList
        (updateList port.wallets (pyUpper base)
          ⟨wb.currency_code, wb.balance - a * r⟩)
        (pyUpper code) ⟨wx.currency_code, wx.balance + a⟩)
      (pyUpper code) =
      some ⟨wx.currency_code, wx.balance + a⟩ :=
    lookupList_updateList_self _ _ _
  rw [sell_currency_success _ cache ttl now code a base r ts src
    ⟨wb.currency_code, wb.balance - a * r⟩
    ⟨wx.currency_code, wx.balance + a⟩ ha hcode hk hr hfresh hwb1 hwx1
    (by simp only []; linarith) hne]
  constructor
  · simp only [Portfolio.balanceAt, lookupList_updateList_self]
    ring
  · simp only [Portfolio.balanceAt,
      lookupList_updateList_ne _ (pyUpper base) (pyUpper code) _ hne,
      lookupList_updateList_self]
    ring

/-- C6 witness: buy then sell of 0.01 BTC at the cached rate 60000
returns alice's USD wallet to 1000 and her BTC wallet to 0. -/
theorem c6_buy_then_sell_round_trip_witness :
    ((sell_currency (buy_currency aliceWithBtc btcUsdCache 300 0 "BTC"
        (1/100) "USD").1 btcUsdCache 300 0 "BTC" (1/100) "USD").1).balanceAt
      "USD" = 1000 ∧
    ((sell_currency (buy_currency aliceWithBtc btcUsdCache 300 0 "BTC"
        (1/100) "USD").1 btcUsdCache 300 0 "BTC" (1/100) "USD").1).balanceAt
      "BTC" = 0 := by
  have hB : pyUpper "BTC" = "BTC" := by decide
  have hU : pyUpper "USD" = "USD" := by decide
  have h := c6_buy_then_sell_round_trip aliceWithBtc btcUsdCache 300 0
    "BTC" "USD" (1/100) 60000 0 "parser" ⟨"USD", 1000⟩ ⟨"BTC", 0⟩
    (by norm_num) (by decide) (by decide) (by norm_num) (by decide)
    (by decide) (by decide) (by decide) (by norm_num) (by norm_num)
  rw [hU, hB] at h
  exact ⟨h.1, h.2⟩
